import Mathlib

/-!
Verification of the go-zfs command-output parsing core.

This file shallowly embeds the parsing functions of the repository
(the octal-escape path unescaper, the diff-row grammar, the batch diff
parser, the tabular record mapper, the property encoder and the output
tokenizer of `Run`) and proves the specified properties about them.

Go byte strings are modelled as `List Nat`, one element per byte
(`GoStr`); Go `string` fields that are only compared and copied are
modelled as Lean `String`.
-/

set_option maxHeartbeats 1000000

deriving instance DecidableEq for Except

/-- A Go byte string: one `Nat` per byte. -/
abbrev GoStr := List Nat

/-- Bytes of an ASCII string literal, for writing concrete `GoStr` values. -/
def bytes (s : String) : GoStr := s.toList.map Char.toNat

/-- One step of `strconv.ParseUint(octalCode, 8, 8)` for the 4-byte slice
`path[i+1:i+5]`: every byte must be an octal digit `0`..`7`, and the value
must fit in 8 bits (`ParseUint` with bitSize 8 range-errors above 255). -/
def parseOctal4 (d1 d2 d3 d4 : Nat) : Option Nat :=
  if (48 ≤ d1 ∧ d1 ≤ 55) ∧ (48 ≤ d2 ∧ d2 ≤ 55) ∧ (48 ≤ d3 ∧ d3 ≤ 55) ∧ (48 ≤ d4 ∧ d4 ≤ 55) then
    if (d1 - 48) * 512 + (d2 - 48) * 64 + (d3 - 48) * 8 + (d4 - 48) < 256 then
      some ((d1 - 48) * 512 + (d2 - 48) * 64 + (d3 - 48) * 8 + (d4 - 48))
    else none
  else none

/-- Embedding of `unescapeFilepath` (byte loop): at a backslash (byte 92) it
requires at least 4 more bytes (the `llen < i+5` check), parses
`path[i+1:i+5]` as base-8 with `ParseUint(_, 8, 8)`, appends the decoded
byte and advances by 5; any other byte is copied and it advances by 1. -/
def unescapeFilepath : GoStr → Except String GoStr
  | [] => .ok []
  | b :: rest =>
    if b = 92 then
      match rest with
      | d1 :: d2 :: d3 :: d4 :: rest2 =>
        match parseOctal4 d1 d2 d3 d4 with
        | some v => (unescapeFilepath rest2).map (fun t => v :: t)
        | none => .error "Invalid octal code"
      | _ => .error "Invalid octal code: too short"
    else (unescapeFilepath rest).map (fun t => b :: t)

/-- C1 (counterexample): the claim predicts that the 4-character escape
`\040` (backslash plus exactly 3 base-8 digits) decodes to the single raw
byte 32; the code instead rejects it as too short, because it consumes
4 digits after the backslash (5 characters total). -/
theorem unescape_three_digit_cex :
    unescapeFilepath (bytes "\\040") = .error "Invalid octal code: too short" ∧
    unescapeFilepath (bytes "\\040") ≠ .ok [32] := by
  refine ⟨rfl, ?_⟩
  decide

/-- C1 (amended): the unescaper works byte by byte; a backslash introduces
exactly a 4-digit base-8 escape (5 characters total including the
backslash) that decodes to one raw byte equal to the decoded value; an
escape with fewer than 5 total characters remaining, or whose 4 digits are
not valid base-8, or whose value exceeds 255, is a fatal parse error; every
non-backslash byte is copied unchanged. -/
theorem unescape_octal_rule :
    (unescapeFilepath [] = .ok []) ∧
    (∀ b rest, b ≠ 92 →
      unescapeFilepath (b :: rest) = (unescapeFilepath rest).map (fun t => b :: t)) ∧
    (∀ d1 d2 d3 d4 rest,
      ((48 ≤ d1 ∧ d1 ≤ 55) ∧ (48 ≤ d2 ∧ d2 ≤ 55) ∧ (48 ≤ d3 ∧ d3 ≤ 55) ∧ (48 ≤ d4 ∧ d4 ≤ 55)) →
      (d1 - 48) * 512 + (d2 - 48) * 64 + (d3 - 48) * 8 + (d4 - 48) < 256 →
      unescapeFilepath (92 :: d1 :: d2 :: d3 :: d4 :: rest) =
        (unescapeFilepath rest).map
          (fun t => ((d1 - 48) * 512 + (d2 - 48) * 64 + (d3 - 48) * 8 + (d4 - 48)) :: t)) ∧
    (∀ rest, rest.length < 4 →
      unescapeFilepath (92 :: rest) = .error "Invalid octal code: too short") ∧
    (∀ d1 d2 d3 d4 rest,
      (¬ ((48 ≤ d1 ∧ d1 ≤ 55) ∧ (48 ≤ d2 ∧ d2 ≤ 55) ∧ (48 ≤ d3 ∧ d3 ≤ 55) ∧ (48 ≤ d4 ∧ d4 ≤ 55)) ∨
        256 ≤ (d1 - 48) * 512 + (d2 - 48) * 64 + (d3 - 48) * 8 + (d4 - 48)) →
      unescapeFilepath (92 :: d1 :: d2 :: d3 :: d4 :: rest) = .error "Invalid octal code") := by
  refine ⟨rfl, ?_, ?_, ?_, ?_⟩
  · intro b rest hb
    rw [unescapeFilepath.eq_def]
    simp [hb]
  · intro d1 d2 d3 d4 rest hdig hlt
    have hp : parseOctal4 d1 d2 d3 d4 =
        some ((d1 - 48) * 512 + (d2 - 48) * 64 + (d3 - 48) * 8 + (d4 - 48)) := by
      unfold parseOctal4
      rw [if_pos hdig, if_pos hlt]
    simp [unescapeFilepath, hp]
  · intro rest hlen
    match rest, hlen with
    | [], _ => rfl
    | [_], _ => rfl
    | [_, _], _ => rfl
    | [_, _, _], _ => rfl
    | _ :: _ :: _ :: _ :: _, h =>
      exact absurd h (by simp only [List.length_cons]; omega)
  · intro d1 d2 d3 d4 rest hbad
    have hp : parseOctal4 d1 d2 d3 d4 = none := by
      unfold parseOctal4
      rcases hbad with hbad | hbad
      · rw [if_neg hbad]
      · by_cases hdig :
          (48 ≤ d1 ∧ d1 ≤ 55) ∧ (48 ≤ d2 ∧ d2 ≤ 55) ∧ (48 ≤ d3 ∧ d3 ≤ 55) ∧ (48 ≤ d4 ∧ d4 ≤ 55)
        · rw [if_pos hdig, if_neg (by omega)]
        · rw [if_neg hdig]
    simp [unescapeFilepath, hp]

/-- C1 witness: the escape `\0101` decodes to byte 65, via the rule theorem. -/
theorem unescape_octal_rule_witness :
    unescapeFilepath [92, 48, 49, 48, 49] = .ok [65] := by
  rw [unescape_octal_rule.2.2.1 48 49 48 49 [] (by decide) (by decide)]
  rfl

/-- C8: on a path containing no backslash byte, the unescaper succeeds and
is the identity. -/
theorem unescape_no_backslash_id (bs : GoStr) (h : 92 ∉ bs) :
    unescapeFilepath bs = .ok bs := by
  induction bs with
  | nil => rfl
  | cons b rest ih =>
    have hb : b ≠ 92 := fun hb => h (hb ▸ List.mem_cons_self b rest)
    have hrest : 92 ∉ rest := fun hr => h (List.mem_cons_of_mem b hr)
    rw [unescapeFilepath.eq_def]
    simp [hb, ih hrest, Except.map]

/-- C8 witness: a concrete backslash-free path round-trips unchanged. -/
theorem unescape_no_backslash_id_witness :
    92 ∉ bytes "/pool/a" ∧ unescapeFilepath (bytes "/pool/a") = .ok (bytes "/pool/a") :=
  ⟨by decide, unescape_no_backslash_id (bytes "/pool/a") (by decide)⟩

/-- Inode change types (`ChangeType`); the Go constants start at 1, with 0
meaning "unknown", which the lookup below models with `Option`. -/
inductive ChangeType where
  | Removed
  | Created
  | Modified
  | Renamed
deriving DecidableEq

/-- Inode types (`InodeType`); as for `ChangeType`, the Go zero value means
"unknown" and is modelled with `Option` in the lookup. -/
inductive InodeType where
  | BlockDevice
  | CharacterDevice
  | Directory
  | Door
  | NamedPipe
  | SymbolicLink
  | EventPort
  | Socket
  | File
deriving DecidableEq

/-- `InodeChange`; the Go field `Type` is spelled `Typ` here because `Type`
is a Lean keyword. `ReferenceCountChange` is a Go `int` (64-bit). -/
structure InodeChange where
  Change : ChangeType
  Typ : InodeType
  Path : GoStr
  NewPath : GoStr
  ReferenceCountChange : Int
deriving DecidableEq

/-- `changeTypeMap` plus the `changeType == 0` check of `parseInodeChange`:
a missing key yields Go's zero value, modelled as `none`. -/
def changeTypeMap (s : GoStr) : Option ChangeType :=
  if s = bytes "-" then some .Removed
  else if s = bytes "+" then some .Created
  else if s = bytes "M" then some .Modified
  else if s = bytes "R" then some .Renamed
  else none

/-- `inodeTypeMap` plus the `inodeType == 0` check of `parseInodeChange`. -/
def inodeTypeMap (s : GoStr) : Option InodeType :=
  if s = bytes "B" then some .BlockDevice
  else if s = bytes "C" then some .CharacterDevice
  else if s = bytes "/" then some .Directory
  else if s = bytes ">" then some .Door
  else if s = bytes "|" then some .NamedPipe
  else if s = bytes "@" then some .SymbolicLink
  else if s = bytes "P" then some .EventPort
  else if s = bytes "=" then some .Socket
  else if s = bytes "F" then some .File
  else none

/-- An ASCII decimal digit byte (the regexp class `\d`). -/
def isDigitByte (b : Nat) : Bool := 48 ≤ b && b ≤ 57

/-- Match of the regexp `\(([+-]\d+?)\)` anchored at the head of the input,
returning the captured group (sign byte followed by the digit run).  The
lazy `+?` is equivalent to a greedy digit run here because the digits must
be followed by a byte that is not a digit, namely `)`. -/
def matchRefAt (s : GoStr) : Option GoStr :=
  match s with
  | 40 :: sg :: rest =>
    if sg = 43 ∨ sg = 45 then
      if rest.takeWhile isDigitByte ≠ [] ∧ (rest.dropWhile isDigitByte).head? = some 41 then
        some (sg :: rest.takeWhile isDigitByte)
      else none
    else none
  | _ => none

/-- `regexp.FindStringSubmatch` for `referenceCountRegex`: the leftmost
match of the unanchored pattern, scanning start positions left to right. -/
def findRefGroup : GoStr → Option GoStr
  | [] => none
  | c :: rest =>
    match matchRefAt (c :: rest) with
    | some g => some g
    | none => findRefGroup rest

/-- `strconv.Atoi` (i.e. `ParseInt(s, 10, 0)` with 64-bit `int`): an
optional sign, then one or more decimal digits; values outside the signed
64-bit range are an error. -/
def goAtoi (s : GoStr) : Except String Int :=
  match s with
  | [] => .error "invalid syntax"
  | _ =>
    let sd : Bool × GoStr :=
      match s with
      | 43 :: rest => (false, rest)
      | 45 :: rest => (true, rest)
      | _ => (false, s)
    if sd.2 = [] then .error "invalid syntax"
    else if sd.2.all isDigitByte then
      let v : Nat := sd.2.foldl (fun a d => a * 10 + (d - 48)) 0
      let iv : Int := if sd.1 then -(v : Int) else (v : Int)
      if iv < -(2 ^ 63) ∨ 2 ^ 63 - 1 < iv then .error "value out of range"
      else .ok iv
    else .error "invalid syntax"

/-- `parseReferenceCount`: regexp search for `\(([+-]\d+?)\)` in the field,
then `strconv.Atoi` on the captured group. -/
def parseReferenceCount (field : GoStr) : Except String Int :=
  match findRefGroup field with
  | none => .error "Regexp does not match"
  | some g => goAtoi g

/-- Grammar errors of `parseInodeChange`, one constructor per distinct
`fmt.Errorf` site (each Go error is a distinct message string). -/
inductive DiffErr where
  | emptyLine
  | unknownChangeType (s : GoStr)
  | fieldCount (expected : String) (got : Nat)
  | unknownInodeType (s : GoStr)
  | filenameParse (msg : String)
  | refCountParse (msg : String)
deriving DecidableEq

/-- The `expect` part of the field-count error message, per change type
(`"4"` for Renamed, `"3..4"` for Modified, `"3"` otherwise). -/
def expectStr (ct : ChangeType) : String :=
  match ct with
  | .Renamed => "4"
  | .Modified => "3..4"
  | _ => "3"

/-- The field-count switch of `parseInodeChange`: Renamed requires 4
fields, Modified 3 or 4, every other change type exactly 3. -/
def fieldCountOk (ct : ChangeType) (n : Nat) : Bool :=
  match ct with
  | .Renamed => n == 4
  | .Modified => n == 3 || n == 4
  | _ => n == 3

/-- The part of `parseInodeChange` after the empty-line, change-type and
field-count checks: inode-type lookup, path unescaping, and the per-type
handling of the fourth field. -/
def parseAfterCount (ct : ChangeType) (line : List GoStr) : Except DiffErr InodeChange :=
  match inodeTypeMap (line.getD 1 []) with
  | none => .error (.unknownInodeType (line.getD 1 []))
  | some it =>
    match unescapeFilepath (line.getD 2 []) with
    | .error m => .error (.filenameParse m)
    | .ok path =>
      match ct with
      | .Renamed =>
        match unescapeFilepath (line.getD 3 []) with
        | .error m => .error (.filenameParse m)
        | .ok np => .ok ⟨ct, it, path, np, 0⟩
      | .Modified =>
        if line.length = 4 then
          match parseReferenceCount (line.getD 3 []) with
          | .error m => .error (.refCountParse m)
          | .ok rc => .ok ⟨ct, it, path, [], rc⟩
        else .ok ⟨ct, it, path, [], 0⟩
      | _ => .ok ⟨ct, it, path, [], 0⟩

/-- `parseInodeChange`: reject empty rows, look up the change type,
validate the field count for that change type, then parse the remaining
fields (`parseAfterCount`). -/
def parseInodeChange (line : List GoStr) : Except DiffErr InodeChange :=
  if line.length < 1 then .error .emptyLine
  else
    match changeTypeMap (line.getD 0 []) with
    | none => .error (.unknownChangeType (line.getD 0 []))
    | some ct =>
      if fieldCountOk ct line.length then parseAfterCount ct line
      else .error (.fieldCount (expectStr ct) line.length)

/-- The batch error of `parseInodeChanges`: the wrapping
`fmt.Errorf("Failed to parse line %d of zfs diff: %v, got: '%s'", i, err, line)`
carries the line index, the row error, and the raw row. -/
structure BatchErr where
  idx : Nat
  inner : DiffErr
  raw : List GoStr
deriving DecidableEq

/-- The loop of `parseInodeChanges`, with the running line index made
explicit: the first failing row aborts the whole batch. -/
def parseInodeChangesAux (i : Nat) : List (List GoStr) → Except BatchErr (List InodeChange)
  | [] => .ok []
  | l :: rest =>
    match parseInodeChange l with
    | .error e => .error ⟨i, e, l⟩
    | .ok c => (parseInodeChangesAux (i + 1) rest).map (fun cs => c :: cs)

/-- `parseInodeChanges`: parse every row, aborting on the first error. -/
def parseInodeChanges (lines : List (List GoStr)) : Except BatchErr (List InodeChange) :=
  parseInodeChangesAux 0 lines

/-- C5: the five diff-row scenarios: removal, directory modification,
modification with a reference-count annotation, rename, and an unknown
change code; rows without a rename target get an empty secondary path and
rows without a reference-count annotation get delta zero. -/
theorem parse_inode_change_scenarios :
    parseInodeChange [bytes "-", bytes "F", bytes "/pool/bar/hello.txt"] =
      .ok ⟨.Removed, .File, bytes "/pool/bar/hello.txt", [], 0⟩ ∧
    parseInodeChange [bytes "M", bytes "/", bytes "/pool/bar/"] =
      .ok ⟨.Modified, .Directory, bytes "/pool/bar/", [], 0⟩ ∧
    parseInodeChange [bytes "M", bytes "F", bytes "/pool/bar/hello.txt", bytes "(+1)"] =
      .ok ⟨.Modified, .File, bytes "/pool/bar/hello.txt", [], 1⟩ ∧
    parseInodeChange [bytes "R", bytes "F", bytes "/pool/bar/file", bytes "/pool/bar/file-new"] =
      .ok ⟨.Renamed, .File, bytes "/pool/bar/file", bytes "/pool/bar/file-new", 0⟩ ∧
    parseInodeChange [bytes "X", bytes "F", bytes "/a"] =
      .error (.unknownChangeType (bytes "X")) := by
  refine ⟨?_, ?_, ?_, ?_, ?_⟩ <;> decide

/-- A nonempty byte string never unescapes to the empty string: each loop
iteration appends exactly one byte to the output. -/
theorem except_map_cons_ok (b : Nat) (r : Except String GoStr) (out : GoStr)
    (h : r.map (fun t => b :: t) = .ok out) : out ≠ [] := by
  cases r with
  | error m => simp [Except.map] at h
  | ok t =>
    simp only [Except.map, Except.ok.injEq] at h
    subst h
    simp

theorem unescape_ok_ne_nil (bs out : GoStr) (hne : bs ≠ [])
    (h : unescapeFilepath bs = .ok out) : out ≠ [] := by
  match bs, hne with
  | b :: d1 :: d2 :: d3 :: d4 :: rest2, _ =>
    rw [unescapeFilepath.eq_2] at h
    by_cases hb : b = 92
    · rw [if_pos hb] at h
      split at h
      · exact except_map_cons_ok _ _ _ h
      · simp at h
    · rw [if_neg hb] at h
      exact except_map_cons_ok _ _ _ h
  | [b], _ =>
    rw [unescapeFilepath.eq_3 _ _ (by intro a1 a2 a3 a4 a5 hh; simp at hh)] at h
    by_cases hb : b = 92
    · rw [if_pos hb] at h; simp at h
    · rw [if_neg hb] at h
      exact except_map_cons_ok _ _ _ h
  | [b, x1], _ =>
    rw [unescapeFilepath.eq_3 _ _ (by intro a1 a2 a3 a4 a5 hh; simp at hh)] at h
    by_cases hb : b = 92
    · rw [if_pos hb] at h; simp at h
    · rw [if_neg hb] at h
      exact except_map_cons_ok _ _ _ h
  | [b, x1, x2], _ =>
    rw [unescapeFilepath.eq_3 _ _ (by intro a1 a2 a3 a4 a5 hh; simp at hh)] at h
    by_cases hb : b = 92
    · rw [if_pos hb] at h; simp at h
    · rw [if_neg hb] at h
      exact except_map_cons_ok _ _ _ h
  | [b, x1, x2, x3], _ =>
    rw [unescapeFilepath.eq_3 _ _ (by intro a1 a2 a3 a4 a5 hh; simp at hh)] at h
    by_cases hb : b = 92
    · rw [if_pos hb] at h; simp at h
    · rw [if_neg hb] at h
      exact except_map_cons_ok _ _ _ h

/-- `parseAfterCount` can fail in several ways, but never with the
field-count error: that validation happened before it. -/
theorem parseAfterCount_ne_fieldCount (ct : ChangeType) (line : List GoStr)
    (e : String) (g : Nat) :
    parseAfterCount ct line ≠ .error (.fieldCount e g) := by
  unfold parseAfterCount
  cases inodeTypeMap (line.getD 1 []) with
  | none => simp
  | some it =>
    cases unescapeFilepath (line.getD 2 []) with
    | error m => simp
    | ok path =>
      cases ct with
      | Renamed =>
        cases unescapeFilepath (line.getD 3 []) with
        | error m => simp
        | ok np => simp
      | Modified =>
        by_cases h4 : line.length = 4
        · simp only [if_pos h4]
          cases parseReferenceCount (line.getD 3 []) with
          | error m => simp
          | ok rc => simp
        · simp only [if_neg h4]
          simp
      | Removed => simp
      | Created => simp

/-- C3: for rows whose first field is a known change-type code, the parser
fails with the field-count grammar error exactly when the field count is
wrong for that change type (Renamed: exactly 4; Modified: 3 or 4; others:
exactly 3); with the correct count the validation step passes, and a
successfully parsed Renamed row whose fourth field is nonempty carries a
nonempty secondary path. -/
theorem parse_inode_change_field_count (line : List GoStr) (ct : ChangeType)
    (hne : 1 ≤ line.length)
    (hct : changeTypeMap (line.getD 0 []) = some ct) :
    (((ct = .Renamed ∧ line.length ≠ 4) ∨
      (ct = .Modified ∧ line.length ≠ 3 ∧ line.length ≠ 4) ∨
      (ct ≠ .Renamed ∧ ct ≠ .Modified ∧ line.length ≠ 3)) ↔
      parseInodeChange line = .error (.fieldCount (expectStr ct) line.length)) ∧
    (∀ ic, parseInodeChange line = .ok ic → ic.Change = .Renamed →
      line.getD 3 [] ≠ [] → ic.NewPath ≠ []) := by
  have hparse : parseInodeChange line =
      (if fieldCountOk ct line.length then parseAfterCount ct line
       else .error (.fieldCount (expectStr ct) line.length)) := by
    unfold parseInodeChange
    rw [if_neg (by omega), hct]
  have hwrong : ((ct = .Renamed ∧ line.length ≠ 4) ∨
      (ct = .Modified ∧ line.length ≠ 3 ∧ line.length ≠ 4) ∨
      (ct ≠ .Renamed ∧ ct ≠ .Modified ∧ line.length ≠ 3)) ↔ fieldCountOk ct line.length = false := by
    cases ct <;> simp [fieldCountOk]
  constructor
  · constructor
    · intro hw
      rw [hparse, if_neg (by rw [hwrong.mp hw]; simp)]
    · intro herr
      by_contra hok
      have hcount : fieldCountOk ct line.length = true := by
        cases h : fieldCountOk ct line.length with
        | true => rfl
        | false => exact absurd (hwrong.mpr h) hok
      rw [hparse, if_pos hcount] at herr
      exact parseAfterCount_ne_fieldCount ct line _ _ herr
  · intro ic hic hren h3
    rw [hparse] at hic
    split at hic
    · unfold parseAfterCount at hic
      split at hic
      · simp at hic
      · split at hic
        · simp at hic
        · split at hic
          · split at hic
            · simp at hic
            · rename_i it hit path hp np hp3
              simp only [Except.ok.injEq] at hic
              have hnp : ic.NewPath = np := by rw [← hic]
              rw [hnp]
              exact unescape_ok_ne_nil _ _ h3 hp3
          · split at hic
            · split at hic
              · simp at hic
              · simp only [Except.ok.injEq] at hic
                rw [← hic] at hren
                simp at hren
            · simp only [Except.ok.injEq] at hic
              rw [← hic] at hren
              simp at hren
          · simp only [Except.ok.injEq] at hic
            rw [← hic] at hren
            rename_i hct1 hct2
            exact absurd hren (by simpa using hct1)
    · simp at hic

/-- C3 witness: a Created row with 4 fields fails the count validation with
the "expect 3" grammar error. -/
theorem parse_inode_change_field_count_witness :
    parseInodeChange [bytes "+", bytes "F", bytes "/a", bytes "/b"] =
      .error (.fieldCount "3" 4) :=
  (parse_inode_change_field_count [bytes "+", bytes "F", bytes "/a", bytes "/b"] .Created
    (by decide) (by decide)).1.mp (by decide)

/-- The claim's reading of the reference-count field pattern: the whole
field is a literal `(`, a sign `+` or `-`, one or more decimal digits, and
`)` (nothing before or after). Used only to compare the claim's wording
with the unanchored regexp search the code performs. -/
def refFieldExact (f : GoStr) : Bool :=
  match f with
  | 40 :: sg :: rest =>
    (sg == 43 || sg == 45) &&
      (rest.dropLast ≠ [] && rest.dropLast.all isDigitByte && (rest.getLast? == some 41))
  | _ => false

/-- C4 (counterexample): the claim says a Modified row's 4th field succeeds
exactly when the field matches the pattern "a literal `(`, then a sign,
then digits, then `)`"; the field `"x(+1)y"` is not of that form, yet the
row parses successfully with delta 1, because the code performs an
unanchored regexp search inside the field. -/
theorem modified_refcount_cex :
    refFieldExact (bytes "x(+1)y") = false ∧
    parseInodeChange [bytes "M", bytes "F", bytes "/a", bytes "x(+1)y"] =
      .ok ⟨.Modified, .File, bytes "/a", [], 1⟩ := by
  refine ⟨?_, ?_⟩ <;> decide

/-- A parenthesized signed-digit group occurring at offset `i` of the
field: `g` is a sign byte followed by a nonempty digit run, and the bytes
of the field from offset `i` read `(`, the group, `)`. -/
def refAt (f : GoStr) (i : Nat) (g : GoStr) : Prop :=
  (∃ sg ds, g = sg :: ds ∧ (sg = 43 ∨ sg = 45) ∧ ds ≠ [] ∧ ∀ d ∈ ds, isDigitByte d = true) ∧
  ∃ t, f.drop i = 40 :: (g ++ 41 :: t)

theorem takeWhile_digits_append (ds t : GoStr) (h : ∀ d ∈ ds, isDigitByte d = true) :
    (ds ++ 41 :: t).takeWhile isDigitByte = ds ∧
    (ds ++ 41 :: t).dropWhile isDigitByte = 41 :: t := by
  induction ds with
  | nil =>
    constructor
    · simp [List.takeWhile_cons, isDigitByte]
    · simp [List.dropWhile_cons, isDigitByte]
  | cons d ds ih =>
    have hd : isDigitByte d = true := h d (by simp)
    have hds : ∀ x ∈ ds, isDigitByte x = true := fun x hx => h x (by simp [hx])
    constructor
    · simp [List.takeWhile_cons, hd, (ih hds).1]
    · simp [List.dropWhile_cons, hd, (ih hds).2]

theorem matchRefAt_some_iff (l g : GoStr) :
    matchRefAt l = some g ↔
      ((∃ sg ds, g = sg :: ds ∧ (sg = 43 ∨ sg = 45) ∧ ds ≠ [] ∧ ∀ d ∈ ds, isDigitByte d = true) ∧
        ∃ t, l = 40 :: (g ++ 41 :: t)) := by
  constructor
  · intro hm
    unfold matchRefAt at hm
    split at hm
    · rename_i sg rest
      split at hm
      · rename_i hsg
        split at hm
        · rename_i hcond
          simp only [Option.some.injEq] at hm
          obtain ⟨hne, hhead⟩ := hcond
          have hsplit := List.takeWhile_append_dropWhile isDigitByte rest
          cases hdrop : rest.dropWhile isDigitByte with
          | nil => rw [hdrop] at hhead; simp at hhead
          | cons c tl =>
            rw [hdrop] at hhead
            simp only [List.head?, Option.some.injEq] at hhead
            subst hhead
            refine ⟨⟨sg, rest.takeWhile isDigitByte, hm.symm, hsg, hne, ?_⟩, tl, ?_⟩
            · intro d hd
              exact List.mem_takeWhile_imp hd
            · rw [← hm]
              simp only [List.cons_append]
              have hr : rest = List.takeWhile isDigitByte rest ++ 41 :: tl := by
                rw [← hdrop]
                exact hsplit.symm
              rw [← hr]
        · exact absurd hm (by simp)
      · exact absurd hm (by simp)
    · exact absurd hm (by simp)
  · rintro ⟨⟨sg, ds, hg, hsg, hne, hdig⟩, t, hl⟩
    subst hg
    subst hl
    unfold matchRefAt
    simp only [List.cons_append]
    rw [if_pos hsg]
    obtain ⟨htake, hdrop⟩ := takeWhile_digits_append ds t hdig
    rw [if_pos (by rw [htake, hdrop]; exact ⟨hne, rfl⟩)]
    rw [htake]

theorem matchRefAt_refAt (f : GoStr) (i : Nat) (g : GoStr) :
    matchRefAt (f.drop i) = some g ↔ refAt f i g := by
  rw [matchRefAt_some_iff]
  rfl

theorem findRefGroup_some_iff (f g : GoStr) :
    findRefGroup f = some g ↔
      ∃ i, matchRefAt (f.drop i) = some g ∧ ∀ j, j < i → matchRefAt (f.drop j) = none := by
  induction f with
  | nil =>
    simp only [findRefGroup]
    constructor
    · intro hm; exact absurd hm (by simp)
    · rintro ⟨i, hi, _⟩
      rw [List.drop_nil] at hi
      exact absurd hi (by simp [matchRefAt])
  | cons c rest ih =>
    rw [findRefGroup]
    cases hm : matchRefAt (c :: rest) with
    | some g2 =>
      simp only [Option.some.injEq]
      constructor
      · intro h
        subst h
        exact ⟨0, hm, by intro j hj; omega⟩
      · rintro ⟨i, hi, hmin⟩
        cases i with
        | zero => rw [List.drop_zero] at hi; rw [hm] at hi; exact (Option.some.injEq _ _).mp hi
        | succ k =>
          have h0 := hmin 0 (by omega)
          rw [List.drop_zero, hm] at h0
          exact absurd h0 (by simp)
    | none =>
      rw [ih]
      constructor
      · rintro ⟨i, hi, hmin⟩
        refine ⟨i + 1, by simpa using hi, ?_⟩
        intro j hj
        cases j with
        | zero => simpa using hm
        | succ k =>
          have := hmin k (by omega)
          simpa using this
      · rintro ⟨i, hi, hmin⟩
        cases i with
        | zero => rw [List.drop_zero, hm] at hi; exact absurd hi (by simp)
        | succ k =>
          refine ⟨k, by simpa using hi, ?_⟩
          intro j hj
          have := hmin (j + 1) (by omega)
          simpa using this

/-- C4 (amended): for a Modified row with a 4th field (given a valid inode
type and path), parsing succeeds exactly when the field contains a
parenthesized signed digit group somewhere inside it — the regexp search is
unanchored — and then the `ReferenceCountChange` is the leftmost such
group's signed integer as parsed by `strconv.Atoi` (which errors outside
the signed 64-bit range); if the field contains no such group, the row
fails with the reference-count grammar error. -/
theorem modified_refcount_rule (t p f : GoStr) (it : InodeType) (pp : GoStr)
    (hit : inodeTypeMap t = some it) (hp : unescapeFilepath p = .ok pp) :
    (∀ n : Int, parseInodeChange [bytes "M", t, p, f] = .ok ⟨.Modified, it, pp, [], n⟩ ↔
        parseReferenceCount f = .ok n) ∧
    (∀ m, parseInodeChange [bytes "M", t, p, f] = .error (.refCountParse m) ↔
        parseReferenceCount f = .error m) ∧
    (∀ n : Int, parseReferenceCount f = .ok n ↔
        ∃ i g, refAt f i g ∧ (∀ j g2, j < i → ¬ refAt f j g2) ∧ goAtoi g = .ok n) ∧
    ((∀ i g, ¬ refAt f i g) → parseReferenceCount f = .error "Regexp does not match") := by
  have hc : changeTypeMap (bytes "M") = some ChangeType.Modified := rfl
  have hfc : fieldCountOk ChangeType.Modified 4 = true := rfl
  have hstep : parseInodeChange [bytes "M", t, p, f] =
      (match parseReferenceCount f with
       | .error m => .error (.refCountParse m)
       | .ok rc => .ok ⟨.Modified, it, pp, [], rc⟩) := by
    simp only [parseInodeChange, parseAfterCount, List.length_cons, List.length_nil,
      List.getD_cons_zero, List.getD_cons_succ, hc, hfc, hit, hp]
    norm_num
  refine ⟨?_, ?_, ?_, ?_⟩
  · intro n
    rw [hstep]
    cases hr : parseReferenceCount f with
    | error m => simp
    | ok rc =>
      constructor <;> intro h <;> simp_all
  · intro m
    rw [hstep]
    cases hr : parseReferenceCount f with
    | error m2 =>
      constructor <;> intro h <;> simp_all
    | ok rc => simp
  · intro n
    unfold parseReferenceCount
    cases hg : findRefGroup f with
    | none =>
      simp only []
      constructor
      · intro h; exact absurd h (by simp)
      · rintro ⟨i, g, hat, hmin, hatoi⟩
        exfalso
        have hm : matchRefAt (f.drop i) = some g := (matchRefAt_refAt f i g).mpr hat
        have hmins : ∀ j, j < i → matchRefAt (f.drop j) = none := by
          intro j hj
          cases hmj : matchRefAt (f.drop j) with
          | none => rfl
          | some g2 =>
            exact absurd ((matchRefAt_refAt f j g2).mp hmj) (hmin j g2 hj)
        have := (findRefGroup_some_iff f g).mpr ⟨i, hm, hmins⟩
        rw [hg] at this
        exact absurd this (by simp)
    | some g =>
      simp only []
      obtain ⟨i, hi, hmin⟩ := (findRefGroup_some_iff f g).mp hg
      constructor
      · intro h
        refine ⟨i, g, (matchRefAt_refAt f i g).mp hi, ?_, h⟩
        intro j g2 hj hat
        have hm := (matchRefAt_refAt f j g2).mpr hat
        rw [hmin j hj] at hm
        exact absurd hm (by simp)
      · rintro ⟨i2, g2, hat2, hmin2, hatoi2⟩
        have hm2 : matchRefAt (f.drop i2) = some g2 := (matchRefAt_refAt f i2 g2).mpr hat2
        have hii : i2 = i := by
          rcases lt_trichotomy i2 i with hlt | heq | hgt
          · rw [hmin i2 hlt] at hm2
            exact absurd hm2 (by simp)
          · exact heq
          · exact absurd ((matchRefAt_refAt f i g).mp hi) (hmin2 i g hgt)
        subst hii
        rw [hi] at hm2
        injection hm2 with hm2
        rw [← hm2] at hatoi2
        exact hatoi2
  · intro hno
    unfold parseReferenceCount
    cases hg : findRefGroup f with
    | none => simp only []
    | some g =>
      exfalso
      obtain ⟨i, hi, -⟩ := (findRefGroup_some_iff f g).mp hg
      exact hno i g ((matchRefAt_refAt f i g).mp hi)

/-- C4 witness: the field `(-2)` parses to delta -2 via the amended rule. -/
theorem modified_refcount_rule_witness :
    parseInodeChange [bytes "M", bytes "F", bytes "/a", bytes "(-2)"] =
      .ok ⟨.Modified, .File, bytes "/a", [], -2⟩ :=
  ((modified_refcount_rule (bytes "F") (bytes "/a") (bytes "(-2)") .File (bytes "/a")
      (by decide) (by decide)).1 (-2)).mpr (by decide)

theorem parseInodeChangesAux_spec (lines : List (List GoStr)) (i : Nat) :
    (∃ cs, parseInodeChangesAux i lines = .ok cs ∧ cs.length = lines.length ∧
      ∀ (j : Nat) (l : List GoStr), lines[j]? = some l → ∃ c, parseInodeChange l = .ok c ∧ cs[j]? = some c) ∨
    (∃ e k, parseInodeChangesAux i lines = .error e ∧ e.idx = i + k ∧
      lines[k]? = some e.raw ∧ parseInodeChange e.raw = .error e.inner ∧
      ∀ (j : Nat) (l : List GoStr), j < k → lines[j]? = some l → ∃ c, parseInodeChange l = .ok c) := by
  induction lines generalizing i with
  | nil =>
    left
    refine ⟨[], rfl, rfl, ?_⟩
    intro j l hj
    simp at hj
  | cons l0 rest ih =>
    simp only [parseInodeChangesAux]
    cases h0 : parseInodeChange l0 with
    | error e0 =>
      right
      refine ⟨⟨i, e0, l0⟩, 0, rfl, by simp, by simp, by simpa using h0, ?_⟩
      intro j l hj
      omega
    | ok c0 =>
      rcases ih (i + 1) with ⟨cs, hcs, hlen, hall⟩ | ⟨e, k, herr, hidx, hraw, hinner, hpre⟩
      · left
        refine ⟨c0 :: cs, ?_, by simp [hlen], ?_⟩
        · rw [hcs]
          rfl
        · intro j l hj
          cases j with
          | zero =>
            simp only [List.getElem?_cons_zero, Option.some.injEq] at hj
            subst hj
            exact ⟨c0, h0, by simp⟩
          | succ k2 =>
            simp only [List.getElem?_cons_succ] at hj ⊢
            exact hall k2 l hj
      · right
        refine ⟨e, k + 1, ?_, by omega, ?_, hinner, ?_⟩
        · rw [herr]
          rfl
        · simpa using hraw
        · intro j l hjk hj
          cases j with
          | zero =>
            simp only [List.getElem?_cons_zero, Option.some.injEq] at hj
            subst hj
            exact ⟨c0, h0⟩
          | succ k2 =>
            simp only [List.getElem?_cons_succ] at hj
            exact hpre k2 l (by omega) hj

/-- C7: batch diff parsing is all-or-nothing: on success it yields one
`InodeChange` per input row (each row parsing successfully to the
corresponding entry), and on failure the single error is annotated with the
index and raw content of the first offending row, every earlier row having
parsed successfully. -/
theorem diff_batch_all_or_nothing (lines : List (List GoStr)) :
    (∀ cs, parseInodeChanges lines = .ok cs → cs.length = lines.length ∧
      ∀ (j : Nat) (l : List GoStr), lines[j]? = some l → ∃ c, parseInodeChange l = .ok c ∧ cs[j]? = some c) ∧
    (∀ e, parseInodeChanges lines = .error e → e.idx < lines.length ∧
      lines[e.idx]? = some e.raw ∧ parseInodeChange e.raw = .error e.inner ∧
      ∀ (j : Nat) (l : List GoStr), j < e.idx → lines[j]? = some l → ∃ c, parseInodeChange l = .ok c) := by
  constructor
  · intro cs hok
    rw [parseInodeChanges] at hok
    rcases parseInodeChangesAux_spec lines 0 with ⟨cs2, h2, hlen, hall⟩ | ⟨e, k, herr, -, -, -, -⟩
    · rw [hok] at h2
      injection h2 with h2
      subst h2
      exact ⟨hlen, hall⟩
    · rw [hok] at herr
      exact absurd herr (by simp)
  · intro e he
    rw [parseInodeChanges] at he
    rcases parseInodeChangesAux_spec lines 0 with ⟨cs2, h2, -, -⟩ | ⟨e2, k, herr, hidx, hraw, hinner, hpre⟩
    · rw [he] at h2
      exact absurd h2 (by simp)
    · rw [he] at herr
      injection herr with herr
      subst herr
      have hk : k = e.idx := by omega
      subst hk
      obtain ⟨hklt, -⟩ := List.getElem?_eq_some.mp hraw
      exact ⟨hklt, hraw, hinner, hpre⟩

/-- C7 witness: a batch whose single row has an unknown change code fails,
and the row error is the unknown-change-type error. -/
theorem diff_batch_all_or_nothing_witness :
    parseInodeChange [bytes "X", bytes "F", bytes "/a"] =
      .error (.unknownChangeType (bytes "X")) :=
  ((diff_batch_all_or_nothing [[bytes "X", bytes "F", bytes "/a"]]).2
    ⟨0, .unknownChangeType (bytes "X"), [bytes "X", bytes "F", bytes "/a"]⟩
    (by decide)).2.2.1

/-- `Dataset`; the Go field `Type` is spelled `Typ` here because `Type` is
a Lean keyword. Fields never touched by `parseLine` (`Compressratio`,
`Usedbysnapshots`) are included for completeness. -/
structure Dataset where
  Name : String
  Origin : String
  Used : String
  Avail : String
  Mountpoint : String
  Compression : String
  Typ : String
  Written : String
  Volsize : String
  Logicalused : String
  Quota : String
  ReceiveResumeToken : String
  Compressratio : String
  Usedbysnapshots : String
deriving DecidableEq

/-- `setString`: the sentinel value `-` maps to the empty string, any
other value is copied verbatim. -/
def setString (value : String) : String :=
  if value = "-" then "" else value

/-- Modelled from the spec: the dataset property column list `DsPropList`
is defined in a platform-specific source file that is not present here;
per the spec the reference platform family lists twelve columns in the
order consumed by `parseLine`, while the solaris family omits the trailing
three (written, logicalused, receive_resume_token). -/
def DsPropList (solaris : Bool) : List String :=
  if solaris then
    ["name", "origin", "used", "avail", "mountpoint", "compression", "type",
     "volsize", "quota"]
  else
    ["name", "origin", "used", "avail", "mountpoint", "compression", "type",
     "volsize", "quota", "written", "logicalused", "receive_resume_token"]

/-- `Dataset.parseLine`, with the `runtime.GOOS != "solaris"` test made an
explicit parameter and the in-place mutation of the receiver modelled by
returning the final record next to the optional error: on a field-count
mismatch the error is returned before any field is written. -/
def parseLine (solaris : Bool) (ds : Dataset) (line : List String) :
    Option String × Dataset :=
  if line.length ≠ (DsPropList solaris).length then
    (some "ZFS output does not match what is expectedon this platform", ds)
  else
    let ds := { ds with Name := setString (line.getD 0 "") }
    let ds := { ds with Avail := setString (line.getD 3 "") }
    let ds := { ds with Compression := setString (line.getD 5 "") }
    let ds := { ds with Mountpoint := setString (line.getD 4 "") }
    let ds := { ds with Quota := setString (line.getD 8 "") }
    let ds := { ds with Typ := setString (line.getD 6 "") }
    let ds := { ds with Origin := setString (line.getD 1 "") }
    let ds := { ds with Used := setString (line.getD 2 "") }
    let ds := { ds with Volsize := setString (line.getD 7 "") }
    let ds :=
      if solaris then ds
      else
        { ds with
          Written := setString (line.getD 9 ""),
          Logicalused := setString (line.getD 10 ""),
          ReceiveResumeToken := setString (line.getD 11 "") }
    (none, ds)

/-- C6: the tabular record mapper fails exactly on a field-count mismatch
against the platform's expected column list, leaving the record unchanged,
and otherwise succeeds, mapping each column position to its field with the
sentinel `-` replaced by the empty string and every other value copied
verbatim (platform-conditional trailing columns are only written on the
reference platform family). -/
theorem parseLine_mapping (solaris : Bool) (ds : Dataset) (line : List String) :
    (line.length ≠ (DsPropList solaris).length →
      parseLine solaris ds line =
        (some "ZFS output does not match what is expectedon this platform", ds)) ∧
    (line.length = (DsPropList solaris).length →
      (parseLine solaris ds line).1 = none ∧
      ((parseLine solaris ds line).2.Name =
          (if line.getD 0 "" = "-" then "" else line.getD 0 "") ∧
        (parseLine solaris ds line).2.Origin =
          (if line.getD 1 "" = "-" then "" else line.getD 1 "") ∧
        (parseLine solaris ds line).2.Used =
          (if line.getD 2 "" = "-" then "" else line.getD 2 "") ∧
        (parseLine solaris ds line).2.Avail =
          (if line.getD 3 "" = "-" then "" else line.getD 3 "") ∧
        (parseLine solaris ds line).2.Mountpoint =
          (if line.getD 4 "" = "-" then "" else line.getD 4 "") ∧
        (parseLine solaris ds line).2.Compression =
          (if line.getD 5 "" = "-" then "" else line.getD 5 "") ∧
        (parseLine solaris ds line).2.Typ =
          (if line.getD 6 "" = "-" then "" else line.getD 6 "") ∧
        (parseLine solaris ds line).2.Volsize =
          (if line.getD 7 "" = "-" then "" else line.getD 7 "") ∧
        (parseLine solaris ds line).2.Quota =
          (if line.getD 8 "" = "-" then "" else line.getD 8 "")) ∧
      (solaris = false →
        (parseLine solaris ds line).2.Written =
          (if line.getD 9 "" = "-" then "" else line.getD 9 "") ∧
        (parseLine solaris ds line).2.Logicalused =
          (if line.getD 10 "" = "-" then "" else line.getD 10 "") ∧
        (parseLine solaris ds line).2.ReceiveResumeToken =
          (if line.getD 11 "" = "-" then "" else line.getD 11 "")) ∧
      (solaris = true →
        (parseLine solaris ds line).2.Written = ds.Written ∧
        (parseLine solaris ds line).2.Logicalused = ds.Logicalused ∧
        (parseLine solaris ds line).2.ReceiveResumeToken = ds.ReceiveResumeToken)) := by
  constructor
  · intro hne
    unfold parseLine
    rw [if_pos hne]
  · intro heq
    have hstep : parseLine solaris ds line = (none, (parseLine solaris ds line).2) := by
      unfold parseLine
      rw [if_neg (by omega)]
    cases hsol : solaris with
    | false =>
      subst hsol
      unfold parseLine
      rw [if_neg (by omega)]
      simp [setString]
    | true =>
      subst hsol
      unfold parseLine
      rw [if_neg (by omega)]
      simp [setString]

/-- C6 witness: a 12-field row on the reference platform maps positionally,
with the sentinel `-` in the origin column becoming the empty string. -/
theorem parseLine_mapping_witness :
    (parseLine false
        ⟨"", "", "", "", "", "", "", "", "", "", "", "", "", ""⟩
        ["p/fs", "-", "10", "20", "/mnt", "lz4", "filesystem", "0", "30",
         "5", "7", "tok"]).1 = none :=
  ((parseLine_mapping false
      ⟨"", "", "", "", "", "", "", "", "", "", "", "", "", ""⟩
      ["p/fs", "-", "10", "20", "/mnt", "lz4", "filesystem", "0", "30",
       "5", "7", "tok"]).2 (by decide)).1

/-- `propsSlice`: for each entry of the property map, append the flag
token `-o` and then `key=value`.  The Go map's iteration order is
unspecified, so the map is modelled as the list of its entries in an
arbitrary iteration order, universally quantified in the theorems. -/
def propsSlice (properties : List (String × String)) : List String :=
  properties.foldl (fun args kv => args ++ ["-o", kv.1 ++ "=" ++ kv.2]) []

theorem propsSlice_foldl (properties : List (String × String)) (acc : List String) :
    properties.foldl (fun args kv => args ++ ["-o", kv.1 ++ "=" ++ kv.2]) acc =
      acc ++ properties.flatMap (fun kv => ["-o", kv.1 ++ "=" ++ kv.2]) := by
  induction properties generalizing acc with
  | nil => simp
  | cons kv rest ih =>
    simp only [List.foldl_cons, List.flatMap_cons, ih]
    simp

theorem flatMap_pair_positions (properties : List (String × String)) :
    ∀ (i : Nat) (kv : String × String), properties[i]? = some kv →
      (properties.flatMap (fun kv => ["-o", kv.1 ++ "=" ++ kv.2]))[2 * i]? = some "-o" ∧
      (properties.flatMap (fun kv => ["-o", kv.1 ++ "=" ++ kv.2]))[2 * i + 1]? =
        some (kv.1 ++ "=" ++ kv.2) := by
  induction properties with
  | nil =>
    intro i kv hkv
    simp at hkv
  | cons kv0 rest ih =>
    intro i kv hkv
    cases i with
    | zero =>
      simp only [List.getElem?_cons_zero, Option.some.injEq] at hkv
      subst hkv
      exact ⟨by simp, by simp⟩
    | succ k =>
      simp only [List.getElem?_cons_succ] at hkv
      have h := ih k kv hkv
      constructor
      · have h2 : 2 * (k + 1) = 2 * k + 1 + 1 := by omega
        rw [h2]
        simp only [List.flatMap_cons, List.cons_append, List.getElem?_cons_succ]
        exact h.1
      · have h2 : 2 * (k + 1) + 1 = 2 * k + 1 + 1 + 1 := by omega
        rw [h2]
        simp only [List.flatMap_cons, List.cons_append, List.getElem?_cons_succ]
        exact h.2

/-- C9: the property encoder emits, for each entry of the map (in the
map's iteration order, which is unspecified), the flag token `-o`
immediately followed by the single token `key=value`: the result is the
flattening of one two-token block per entry, has exactly twice as many
tokens as entries, and the entry at index `i` occupies exactly positions
`2*i` and `2*i+1`. -/
theorem propsSlice_encoding (properties : List (String × String)) :
    propsSlice properties =
      properties.flatMap (fun kv => ["-o", kv.1 ++ "=" ++ kv.2]) ∧
    (propsSlice properties).length = 2 * properties.length ∧
    ∀ (i : Nat) (kv : String × String), properties[i]? = some kv →
      (propsSlice properties)[2 * i]? = some "-o" ∧
      (propsSlice properties)[2 * i + 1]? = some (kv.1 ++ "=" ++ kv.2) := by
  have hflat : propsSlice properties =
      properties.flatMap (fun kv => ["-o", kv.1 ++ "=" ++ kv.2]) := by
    unfold propsSlice
    rw [propsSlice_foldl]
    simp
  refine ⟨hflat, ?_, ?_⟩
  · rw [hflat]
    clear hflat
    induction properties with
    | nil => simp
    | cons kv rest ih =>
      simp only [List.flatMap_cons, List.length_append, List.length_cons, List.length_nil, ih]
      omega
  · intro i kv hkv
    rw [hflat]
    exact flatMap_pair_positions properties i kv hkv

/-- C9 witness: a one-entry map encodes to the two adjacent tokens. -/
theorem propsSlice_encoding_witness :
    (propsSlice [("compression", "lz4")])[0]? = some "-o" ∧
    (propsSlice [("compression", "lz4")])[1]? = some "compression=lz4" :=
  (propsSlice_encoding [("compression", "lz4")]).2.2 0 ("compression", "lz4") (by decide)

/-- `unicode.IsSpace`: the Latin-1 whitespace bytes plus the Unicode
White_Space separators checked by Go for runes above 0x80. -/
def goIsSpace (c : Char) : Bool :=
  c.toNat = 9 || c.toNat = 10 || c.toNat = 11 || c.toNat = 12 || c.toNat = 13 ||
  c.toNat = 32 || c.toNat = 0x85 || c.toNat = 0xA0 || c.toNat = 0x1680 ||
  (0x2000 ≤ c.toNat && c.toNat ≤ 0x200A) ||
  c.toNat = 0x2028 || c.toNat = 0x2029 || c.toNat = 0x202F || c.toNat = 0x205F ||
  c.toNat = 0x3000

/-- `strings.Split(s, "\n")`: the segments between newlines; the result is
never empty (splitting the empty string yields one empty segment). -/
def splitNl : List Char → List (List Char)
  | [] => [[]]
  | c :: rest =>
    match splitNl rest with
    | [] => [[]]
    | cur :: parts => if c = '\n' then [] :: cur :: parts else (c :: cur) :: parts

/-- The accumulator loop behind `strings.Fields`: split around maximal runs
of whitespace, producing no empty fields. -/
def goFieldsAux : List Char → List Char → List (List Char)
  | [], acc => if acc.isEmpty then [] else [acc.reverse]
  | c :: rest, acc =>
    if goIsSpace c then
      if acc.isEmpty then goFieldsAux rest [] else acc.reverse :: goFieldsAux rest []
    else goFieldsAux rest (c :: acc)

/-- `strings.Fields`: the whitespace-separated fields of a line. -/
def goFields (cs : List Char) : List String :=
  (goFieldsAux cs []).map (fun w => String.mk w)

/-- The output-splitting step of `Run`: split the captured stdout on
newlines, drop the last segment ("last line is always blank"), and
tokenize each remaining line into whitespace-separated fields. -/
def runTokenize (out : String) : List (List String) :=
  ((splitNl out.toList).dropLast).map goFields

/-- C2 (counterexample): on the captured raw text `"a b\nc d\n\n"` the
tokenizer produces three rows, the third one empty — the text has three
newlines, so splitting yields four segments and dropping the last leaves
the blank third line as an empty row — not the two rows the claim states. -/
theorem tokenize_trailing_blank_cex :
    runTokenize "a b\nc d\n\n" = [["a", "b"], ["c", "d"], []] ∧
    runTokenize "a b\nc d\n\n" ≠ [["a", "b"], ["c", "d"]] := by
  refine ⟨?_, ?_⟩ <;> decide

/-- C2 (amended): on the captured raw text `"a b\nc d\n"` (two
newline-terminated data lines) the tokenizer produces exactly the two rows
`["a","b"]` and `["c","d"]`: it splits on line boundaries, drops the final
empty segment after the last newline, and splits each remaining line on
runs of whitespace. -/
theorem tokenize_two_rows :
    runTokenize "a b\nc d\n" = [["a", "b"], ["c", "d"]] := by
  decide

theorem splitNl_length_pos (cs : List Char) : 1 ≤ (splitNl cs).length := by
  induction cs with
  | nil => simp [splitNl]
  | cons c rest ih =>
    simp only [splitNl]
    cases h : splitNl rest with
    | nil => simp
    | cons cur parts =>
      by_cases hc : c = '\n' <;> simp [hc]

/-- C10: the output-splitting step of `Run` is total for every captured
output string: splitting on newlines always yields at least one segment,
discarding the final segment therefore never under-runs (the row count is
exactly the segment count minus one), and empty captured output produces
zero rows. -/
theorem run_tokenize_total (s : String) :
    1 ≤ (splitNl s.toList).length ∧
    (runTokenize s).length = (splitNl s.toList).length - 1 ∧
    (s = "" → runTokenize s = []) := by
  refine ⟨splitNl_length_pos s.toList, ?_, ?_⟩
  · unfold runTokenize
    rw [List.length_map, List.length_dropLast]
  · intro h
    subst h
    decide

/-- C10 witness: empty captured output tokenizes to zero rows. -/
theorem run_tokenize_total_witness : runTokenize "" = [] :=
  (run_tokenize_total "").2.2 rfl
